import Mathlib

/-!
Verification of the guerrillamail client library (src/client.rs, src/lib.rs).

The client wraps a disposable-email web service: it bootstraps a session by
scraping a token from the landing page, then issues form-encoded requests.
This file embeds the pure core of each operation: the JSON response handling
of create_email, get_messages, fetch_email and delete_email, the query and
header construction shared by all calls, the alias extraction helper, and the
bootstrap token scanner of ClientBuilder::build.

Network transport (reqwest) is not modelled: each operation is embedded as a
function of the already-received response (JSON value, HTTP status code) or as
the description of the outgoing request (method, query, form, headers).
-/

set_option autoImplicit false

namespace GuerrillaMail

/-- JSON values as produced by the HTTP layer after a successful body decode,
mirroring the cases of a serde_json Value. Numbers are modelled as integers,
which is enough for the responses the client inspects. -/
inductive Json : Type where
  | null : Json
  | bool : Bool → Json
  | num : Int → Json
  | str : String → Json
  | arr : List Json → Json
  | obj : List (String × Json) → Json

/-- Error kinds of the crate. Modelled from the spec: the file error.rs is
absent from src/. The lib.rs crate documentation names Error::Request for
transport failures and Error::ResponseParse and Error::Json for shape or
content issues, and client.rs uses Error::TokenParse for the token-bootstrap
failure. -/
inductive Error : Type where
  | Request : Error
  | ResponseParse : Error
  | Json : Error
  | TokenParse : Error
deriving DecidableEq

/-- Every error kind other than the transport kind is a parse error in the
taxonomy of spec section 7 (response-shape failure, with token-bootstrap
failure a specialized case of it). -/
def is_parse_error : Error → Bool
  | Error.Request => false
  | _ => true

/-- Lookup of a key in the field list of a JSON object, first match wins
(serde_json object lookup; parsed objects carry unique keys). -/
def lookupField : List (String × Json) → String → Option Json
  | [], _ => none
  | p :: rest, key => if p.fst = key then some p.snd else lookupField rest key

/-- serde_json Value::get with a string key: a field lookup on objects, none
on every other value. -/
def getJField (v : Json) (key : String) : Option Json :=
  match v with
  | Json.obj fields => lookupField fields key
  | _ => none

/-- serde_json Value::as_str. -/
def asStr : Json → Option String
  | Json.str s => some s
  | _ => none

/-- serde_json Value::as_array. -/
def asArr : Json → Option (List Json)
  | Json.arr xs => some xs
  | _ => none

/-- Modelled from the spec: the file models.rs is absent from src/. A message
summary carries an identifier, a sender, a subject and arrival metadata
(spec sections 3 and 4.3); lib.rs and the client.rs examples name the fields
mail_id, mail_from and mail_subject. -/
structure Message where
  mail_id : String
  mail_from : String
  mail_subject : String
  mail_date : String
deriving DecidableEq

/-- Modelled from the spec: serde-style strict decoding of a Message, as used
by get_messages on each list entry; every field must be present with a string
value, otherwise the entry fails to decode. -/
def decodeMessage (v : Json) : Option Message :=
  match (getJField v "mail_id").bind asStr, (getJField v "mail_from").bind asStr,
        (getJField v "mail_subject").bind asStr, (getJField v "mail_date").bind asStr with
  | some i, some f, some s, some d => some ⟨ i, f, s, d ⟩
  | _, _, _, _ => none

/-- Modelled from the spec: the file models.rs is absent from src/. The full
message detail is the summary plus the body (spec sections 3 and 4.4); the
client.rs example reads the field mail_body. -/
structure EmailDetails where
  mail_id : String
  mail_from : String
  mail_subject : String
  mail_date : String
  mail_body : String
deriving DecidableEq

/-- Modelled from the spec: serde-style strict decoding of EmailDetails, as
used by fetch_email on the whole response; every field must be present with a
string value, otherwise decoding fails. -/
def decodeEmailDetails (v : Json) : Option EmailDetails :=
  match (getJField v "mail_id").bind asStr, (getJField v "mail_from").bind asStr,
        (getJField v "mail_subject").bind asStr, (getJField v "mail_date").bind asStr,
        (getJField v "mail_body").bind asStr with
  | some i, some f, some s, some d, some b => some ⟨ i, f, s, d, b ⟩
  | _, _, _, _, _ => none

/-- Response handling of Client::create_email (client.rs lines 94 to 98):
look up the email_addr field, keep it when it is a string, and otherwise
fail with Error::TokenParse. -/
def create_email_decode (response : Json) : Except Error String :=
  match (getJField response "email_addr").bind asStr with
  | some s => Except.ok s
  | none => Except.error Error.TokenParse

/-- Response handling of Client::get_messages (client.rs lines 126 to 134):
look up the list field, keep it when it is an array, decode each entry and
silently drop the entries that fail to decode; default to the empty list. -/
def get_messages_decode (response : Json) : List Message :=
  ((((getJField response "list").bind asArr).map
      (fun entries => entries.filterMap decodeMessage)).getD [])

/-- Client::get_messages wraps the decoded list in Ok (client.rs line 136):
once the body has parsed as JSON the call cannot fail. -/
def get_messages_result (response : Json) : Except Error (List Message) :=
  Except.ok (get_messages_decode response)

/-- Response handling of Client::fetch_email (client.rs line 165): decode the
whole response as EmailDetails and map any decode failure to
Error::TokenParse. -/
def fetch_email_decode (response : Json) : Except Error EmailDetails :=
  match decodeEmailDetails response with
  | some d => Except.ok d
  | none => Except.error Error.TokenParse

/-- reqwest StatusCode::is_success: the status code lies in the 2xx range. -/
def status_is_success (status : Nat) : Bool :=
  decide (200 ≤ status ∧ status < 300)

/-- Response handling of Client::delete_email (client.rs line 202): the call
returns Ok of the success flag of the status code and never reads the body. -/
def delete_email_result (status : Nat) (_body : String) : Except Error Bool :=
  Except.ok (status_is_success status)

/-- Rust str::split on a separator character: the list of chunks between
occurrences of the separator; always nonempty, and the empty string yields
one empty chunk. -/
def splitChar (sep : Char) : List Char → List (List Char)
  | [] => [ [] ]
  | c :: cs =>
    if c = sep then [] :: splitChar sep cs
    else
      match splitChar sep cs with
      | [] => [ [ c ] ]
      | h :: t => (c :: h) :: t

/-- Client::extract_alias (client.rs lines 246 to 248): the first chunk of
the split on the at sign, falling back to the whole input were the split
empty. -/
def extract_alias (email : List Char) : List Char :=
  (splitChar '@' email).headD email

/-- HTTP method of an outgoing request. -/
inductive Method : Type where
  | get : Method
  | post : Method
deriving DecidableEq

/-- Description of an outgoing request: method, query parameters, form fields
and headers, each in construction order. -/
structure Request where
  method : Method
  query : List (String × String)
  form : List (String × String)
  headers : List (String × String)

/-- Validity of a character for an HTTP header value, as checked by
HeaderValue::from_str byte by byte: horizontal tab, or any byte at 32 or
above other than delete; characters past ASCII encode to bytes at 128 or
above and are accepted. -/
def validHeaderValueChar (c : Char) : Bool :=
  c = Char.ofNat 9 || (decide (32 ≤ c.toNat) && decide (c.toNat ≠ 127))

/-- Validity of a whole string as an HTTP header value. -/
def validHeaderValue (s : String) : Bool :=
  s.toList.all validHeaderValueChar

/-- Client::headers (client.rs lines 260 to 296): the fixed header set built
for every call, in insertion order. The user agent is inserted only when it
forms a valid header value; the authorization value is built by formatting
the api token after the ApiToken scheme word (bootstrap tokens consist of
word characters, so the unwrap on that value cannot panic). -/
def headers_list (userAgent apiToken : String) : List (String × String) :=
  [ ( "host", "www.guerrillamail.com" ) ] ++
  ( if validHeaderValue userAgent then [ ( "user-agent", userAgent ) ] else [] ) ++
  [ ( "accept", "application/json, text/javascript, */*; q=0.01" ),
    ( "accept-language", "en-US,en;q=0.5" ),
    ( "content-type", "application/x-www-form-urlencoded; charset=UTF-8" ),
    ( "authorization", "ApiToken " ++ apiToken ),
    ( "x-requested-with", "XMLHttpRequest" ),
    ( "origin", "https://www.guerrillamail.com" ),
    ( "referer", "https://www.guerrillamail.com/" ),
    ( "sec-fetch-dest", "empty" ),
    ( "sec-fetch-mode", "cors" ),
    ( "sec-fetch-site", "same-origin" ),
    ( "priority", "u=0" ) ]

/-- Header set of Client::get_api (client.rs lines 230 to 231): the shared
header set with the content-type entry removed. -/
def get_api_headers (userAgent apiToken : String) : List (String × String) :=
  (headers_list userAgent apiToken).filter (fun p => p.fst != "content-type")

/-- Query parameters of Client::get_api (client.rs lines 212 to 228): the
base list of function, site, alias and cache-busting timestamp; an optional
email_id inserted at index one; and for check_email a seq parameter inserted
at index one. The timestamp is taken as a parameter since it reads the clock
in the source. -/
def get_api_params (function : String) (email : List Char) (email_id : Option String)
    (ms : Nat) : List (String × String) :=
  let base : List (String × String) :=
    [ ( "f", function ), ( "site", "guerrillamail.com" ),
      ( "in", String.mk (extract_alias email) ), ( "_", toString ms ) ]
  let withId : List (String × String) :=
    match email_id with
    | some id => List.insertIdx 1 ( "email_id", id ) base
    | none => base
  if function = "check_email" then List.insertIdx 1 ( "seq", "1" ) withId else withId

/-- Outgoing request of Client::create_email (client.rs lines 73 to 92): a
POST with the set_email_user function, the fixed form fields, and the shared
header set. -/
def create_email_request (userAgent apiToken aliasArg : String) : Request :=
  ⟨ Method.post,
    [ ( "f", "set_email_user" ) ],
    [ ( "email_user", aliasArg ), ( "lang", "en" ),
      ( "site", "guerrillamail.com" ), ( "in", " Set cancel" ) ],
    headers_list userAgent apiToken ⟩

/-- Outgoing request of Client::delete_email (client.rs lines 188 to 200): a
POST with the forget_me function, the site and alias form fields, and the
shared header set. -/
def delete_email_request (userAgent apiToken : String) (email : List Char) : Request :=
  ⟨ Method.post,
    [ ( "f", "forget_me" ) ],
    [ ( "site", "guerrillamail.com" ), ( "in", String.mk (extract_alias email) ) ],
    headers_list userAgent apiToken ⟩

/-- Outgoing request of Client::get_api (client.rs lines 206 to 243): a GET
with the constructed query parameters and the content-type-free headers. -/
def get_api_request (userAgent apiToken function : String) (email : List Char)
    (email_id : Option String) (ms : Nat) : Request :=
  ⟨ Method.get,
    get_api_params function email email_id ms,
    [],
    get_api_headers userAgent apiToken ⟩

/-- Outgoing request of Client::get_messages (client.rs line 124): get_api
with the check_email function and no message id. -/
def get_messages_request (userAgent apiToken : String) (email : List Char)
    (ms : Nat) : Request :=
  get_api_request userAgent apiToken "check_email" email none ms

/-- Outgoing request of Client::fetch_email (client.rs line 164): get_api
with the fetch_email function and the message id. -/
def fetch_email_request (userAgent apiToken : String) (email : List Char)
    (mailId : String) (ms : Nat) : Request :=
  get_api_request userAgent apiToken "fetch_email" email (some mailId) ms

/-- Word character of the token pattern, the regex class backslash-w
restricted to ASCII: letters, digits and the underscore. -/
def wordChar (c : Char) : Bool :=
  c.isAlphanum || c = '_'

/-- Whitespace character of the token pattern, the regex class backslash-s
restricted to ASCII. -/
def wsChar (c : Char) : Bool :=
  c = ' ' || c = Char.ofNat 9 || c = Char.ofNat 10 ||
  c = Char.ofNat 13 || c = Char.ofNat 11 || c = Char.ofNat 12

/-- Literal head of the token pattern. -/
def patternLit : List Char :=
  "api_token".toList

/-- Matching of a literal against the head of the input: the rest of the
input on success. -/
def dropLit : List Char → List Char → Option (List Char)
  | [], s => some s
  | _ :: _, [] => none
  | c :: cs, d :: ds => if c = d then dropLit cs ds else none

/-- Matching of the token regex of ClientBuilder::build (client.rs line 393)
anchored at the start of the input: the literal head, optional whitespace, a
colon, optional whitespace, a quote, a nonempty greedy run of word characters
as the capture group, and a closing quote. Returns the capture group. -/
def matchAt (s : List Char) : Option (List Char) :=
  match dropLit patternLit s with
  | none => none
  | some s1 =>
    match dropLit [ ':' ] (s1.dropWhile wsChar) with
    | none => none
    | some s3 =>
      match dropLit [ '\'' ] (s3.dropWhile wsChar) with
      | none => none
      | some s5 =>
        if s5.takeWhile wordChar = [] then none
        else
          match dropLit [ '\'' ] (s5.dropWhile wordChar) with
          | none => none
          | some _ => some (s5.takeWhile wordChar)

/-- Leftmost match of the token regex over the whole input, as Regex::captures
finds it: try every start position from the left and return the first capture
group found. -/
def findToken : List Char → Option (List Char)
  | [] => none
  | c :: rest =>
    match matchAt (c :: rest) with
    | some t => some t
    | none => findToken rest

/-- Token extraction of ClientBuilder::build (client.rs lines 392 to 398):
the captured group of the leftmost match of the token pattern over the
landing page, or Error::TokenParse when the pattern is absent. -/
def builder_build (page : List Char) : Except Error (List Char) :=
  match findToken page with
  | some t => Except.ok t
  | none => Except.error Error.TokenParse

/-- Specification-side predicate: the input starts with one full instance of
the token pattern whose capture group is the given token. -/
def patternInstanceWith (s t : List Char) : Prop :=
  ∃ w1 w2 rest,
    (∀ c ∈ w1, wsChar c = true) ∧ (∀ c ∈ w2, wsChar c = true) ∧
    t ≠ [] ∧ (∀ c ∈ t, wordChar c = true) ∧
    s = patternLit ++ (w1 ++ ':' :: (w2 ++ '\'' :: (t ++ '\'' :: rest)))

/-- Specification-side predicate: the input starts with one full instance of
the token pattern. -/
def patternInstance (s : List Char) : Prop :=
  ∃ t, patternInstanceWith s t

/-- Specification-side predicate: some substring of the input is a full
instance of the token pattern. -/
def containsPattern (s : List Char) : Prop :=
  ∃ pre suf, s = pre ++ suf ∧ patternInstance suf

/-- Example landing page used to exercise the token scanner on a concrete
input. -/
def pageExample : List Char :=
  "var site; api_token : ".toList ++ '\'' :: ("ab12cd".toList ++ '\'' :: "; run();".toList)

/-- Dropped entries and kept entries: the length of a filterMap is the count
of inputs on which the function succeeds. -/
theorem length_filterMap_eq_countP {α β : Type} (f : α → Option β) (xs : List α) :
    (xs.filterMap f).length = xs.countP (fun a => (f a).isSome) := by
  induction xs with
  | nil => rfl
  | cons a rest ih =>
    cases h : f a <;> simp [List.filterMap_cons, h, List.countP_cons, ih]

/-- C1: for a list response whose list field holds any array of entries,
get_messages returns Ok with exactly the entries that decode into the
Message shape, in order, the malformed ones silently dropped; the result
length is the count of well-formed entries, and an empty array yields Ok
with the empty list. -/
theorem claim1_get_messages_drops_malformed (entries : List Json) :
    get_messages_result (Json.obj [ ( "list", Json.arr entries ) ]) =
      Except.ok (entries.filterMap decodeMessage) ∧
    (entries.filterMap decodeMessage).length =
      entries.countP (fun v => (decodeMessage v).isSome) ∧
    get_messages_result (Json.obj [ ( "list", Json.arr [] ) ]) = Except.ok [] := by
  refine ⟨ rfl, length_filterMap_eq_countP _ _, rfl ⟩

/-- C9: get_messages never fails once the body has parsed as JSON: every
response value yields Ok, and a response whose list field is absent or is
not an array yields Ok with the empty list rather than a parse error. -/
theorem claim9_get_messages_never_shape_error (v : Json) :
    (∃ msgs, get_messages_result v = Except.ok msgs) ∧
    ((getJField v "list").bind asArr = none → get_messages_result v = Except.ok []) := by
  constructor
  · exact ⟨ get_messages_decode v, rfl ⟩
  · intro h
    simp [get_messages_result, get_messages_decode, h]

/-- C9 witness: a response whose list field is a string, not an array, yields
Ok with the empty list. -/
theorem claim9_witness :
    get_messages_result (Json.obj [ ( "list", Json.str "oops" ) ]) = Except.ok [] :=
  (claim9_get_messages_never_shape_error (Json.obj [ ( "list", Json.str "oops" ) ])).2 rfl

/-- C2 (code bug evidence): on a fetch response that decodes as JSON but
lacks the required fields, fetch_email fails with Error::TokenParse, the
token-bootstrap error kind, which is distinct from the documented
response-parse kind Error::ResponseParse. -/
theorem claim2_fetch_email_tokenparse_kind :
    fetch_email_decode (Json.obj []) = Except.error Error.TokenParse ∧
    Error.TokenParse ≠ Error.ResponseParse := by
  exact ⟨ rfl, by decide ⟩

/-- C6: create_email returns Ok with exactly the string of the email_addr
field when that field is present as a string, and fails with the parse error
kind Error::TokenParse when the field is absent or not a string. -/
theorem claim6_create_email_verbatim (v : Json) :
    (∀ s, getJField v "email_addr" = some (Json.str s) →
        create_email_decode v = Except.ok s) ∧
    ((getJField v "email_addr").bind asStr = none →
        create_email_decode v = Except.error Error.TokenParse ∧
        is_parse_error Error.TokenParse = true) := by
  constructor
  · intro s h
    simp [create_email_decode, h, asStr]
  · intro h
    exact ⟨ by simp [create_email_decode, h], rfl ⟩

/-- C6 witness: a response carrying email_addr as a string yields exactly
that string, and a response without the field fails with Error::TokenParse. -/
theorem claim6_witness :
    create_email_decode (Json.obj [ ( "email_addr", Json.str "x1@grr.la" ) ]) =
      Except.ok "x1@grr.la" ∧
    create_email_decode (Json.obj [ ( "other", Json.str "x" ) ]) =
      Except.error Error.TokenParse := by
  refine ⟨ ?_, ?_ ⟩
  · exact (claim6_create_email_verbatim (Json.obj [ ( "email_addr", Json.str "x1@grr.la" ) ])).1
      "x1@grr.la" rfl
  · exact ((claim6_create_email_verbatim (Json.obj [ ( "other", Json.str "x" ) ])).2 rfl).1

/-- C4: delete_email returns Ok of the status success flag, true exactly for
a status in the 2xx range, never reads the body, never raises an error for a
non-success status, and in particular yields true for 200 and false for
404. -/
theorem claim4_delete_email_status_flag (status : Nat) (body : String) :
    delete_email_result status body = Except.ok (status_is_success status) ∧
    (delete_email_result status body = Except.ok true ↔ 200 ≤ status ∧ status < 300) ∧
    (∀ otherBody, delete_email_result status body = delete_email_result status otherBody) ∧
    delete_email_result 200 body = Except.ok true ∧
    delete_email_result 404 body = Except.ok false := by
  refine ⟨ rfl, ?_, fun _ => rfl, rfl, rfl ⟩
  simp [delete_email_result, status_is_success]

/-- The split of a string on a separator always yields at least one chunk,
so the fallback of extract_alias is unreachable. -/
theorem splitChar_ne_nil (sep : Char) (s : List Char) : splitChar sep s ≠ [] := by
  induction s with
  | nil => simp [splitChar]
  | cons c cs ih =>
    simp only [splitChar]
    split
    · simp
    · split <;> simp

/-- The first chunk of the split is the run of characters before the first
occurrence of the separator, whatever the headD default. -/
theorem splitChar_headD (sep : Char) (s : List Char) (d : List Char) :
    (splitChar sep s).headD d = s.takeWhile (fun c => c != sep) := by
  induction s generalizing d with
  | nil => simp [splitChar]
  | cons c cs ih =>
    simp only [splitChar]
    by_cases hc : c = sep
    · simp [hc, List.takeWhile_cons]
    · rw [if_neg hc]
      cases h : splitChar sep cs with
      | nil => exact absurd h (splitChar_ne_nil sep cs)
      | cons hh tt =>
        have h2 := ih d
        rw [h] at h2
        simp only [List.headD_cons] at h2 ⊢
        simp [List.takeWhile_cons, bne_iff_ne, hc, h2]

/-- extract_alias computes the run of characters before the first at sign. -/
theorem extract_alias_eq_takeWhile (s : List Char) :
    extract_alias s = s.takeWhile (fun c => c != '@') :=
  splitChar_headD '@' s s

/-- C7: alias extraction takes the substring before the at sign: on
foo@bar.com it yields exactly foo, and on any input containing no at sign it
yields the whole input unchanged. -/
theorem claim7_alias_before_at :
    extract_alias ("foo@bar.com".toList) = "foo".toList ∧
    (∀ s : List Char, (∀ c ∈ s, c ≠ '@') → extract_alias s = s) := by
  constructor
  · rfl
  · intro s h
    rw [extract_alias_eq_takeWhile]
    exact List.takeWhile_eq_self_iff.mpr (fun x hx => by simpa [bne_iff_ne] using h x hx)

/-- C7 witness: an address with no at sign is returned unchanged. -/
theorem claim7_witness : extract_alias ("nodomain".toList) = "nodomain".toList :=
  claim7_alias_before_at.2 ("nodomain".toList) (by decide)

/-- C10: alias extraction is total: the split always yields at least one
chunk so the fallback branch is unreachable, the result is always the run of
characters before the first at sign, a string with several at signs yields
the part before the first one, and the empty string yields the empty
string. -/
theorem claim10_alias_total :
    (∀ s : List Char, splitChar '@' s ≠ []) ∧
    (∀ s : List Char, extract_alias s = s.takeWhile (fun c => c != '@')) ∧
    extract_alias ("a@b@c".toList) = "a".toList ∧
    extract_alias ([] : List Char) = [] := by
  exact ⟨ fun s => splitChar_ne_nil '@' s, extract_alias_eq_takeWhile, rfl, rfl ⟩

/-- The authorization header embedding the bootstrap token is in the shared
header set for every configuration. -/
theorem auth_mem_headers (ua tok : String) :
    ( "authorization", "ApiToken " ++ tok ) ∈ headers_list ua tok := by
  by_cases h : validHeaderValue ua <;> simp [headers_list, h]

/-- The authorization header survives the content-type removal performed for
GET calls. -/
theorem auth_mem_get_api_headers (ua tok : String) :
    ( "authorization", "ApiToken " ++ tok ) ∈ get_api_headers ua tok := by
  refine List.mem_filter.mpr ⟨ auth_mem_headers ua tok, ?_ ⟩
  rfl

/-- The check_email query carries the stringified timestamp under the
underscore key. -/
theorem timestamp_mem_check_params (email : List Char) (ms : Nat) :
    ( "_", toString ms ) ∈ get_api_params "check_email" email none ms := by
  simp [get_api_params, List.insertIdx_succ_cons, List.insertIdx_zero]

/-- The fetch_email query carries the stringified timestamp under the
underscore key. -/
theorem timestamp_mem_fetch_params (email : List Char) (mailId : String) (ms : Nat) :
    ( "_", toString ms ) ∈ get_api_params "fetch_email" email (some mailId) ms := by
  simp [get_api_params, List.insertIdx_succ_cons, List.insertIdx_zero]

/-- C3 counterexample: the claim says every post-bootstrap call carries a
timestamp query parameter, but the create_email request carries no
underscore key in its query at all. -/
theorem claim3_counterexample :
    "_" ∉ ((create_email_request "Mozilla/5.0" "testtoken" "myalias").query.map Prod.fst) := by
  decide

/-- C3 (amended): every post-bootstrap call carries the bootstrap token in
the authorization header; the GET calls get_messages and fetch_email
additionally carry the stringified timestamp as the underscore query
parameter, while the POST calls create_email and delete_email carry no
timestamp parameter. -/
theorem claim3_amended_token_and_timestamp (ua tok aliasArg : String) (email : List Char)
    (mailId : String) (ms : Nat) :
    ( ( "authorization", "ApiToken " ++ tok ) ∈ (create_email_request ua tok aliasArg).headers ) ∧
    ( ( "authorization", "ApiToken " ++ tok ) ∈ (delete_email_request ua tok email).headers ) ∧
    ( ( "authorization", "ApiToken " ++ tok ) ∈ (get_messages_request ua tok email ms).headers ) ∧
    ( ( "authorization", "ApiToken " ++ tok ) ∈
        (fetch_email_request ua tok email mailId ms).headers ) ∧
    ( ( "_", toString ms ) ∈ (get_messages_request ua tok email ms).query ) ∧
    ( ( "_", toString ms ) ∈ (fetch_email_request ua tok email mailId ms).query ) ∧
    ( "_" ∉ (create_email_request ua tok aliasArg).query.map Prod.fst ) ∧
    ( "_" ∉ (delete_email_request ua tok email).query.map Prod.fst ) := by
  refine ⟨ auth_mem_headers ua tok, auth_mem_headers ua tok,
    auth_mem_get_api_headers ua tok, auth_mem_get_api_headers ua tok,
    timestamp_mem_check_params email ms, timestamp_mem_fetch_params email mailId ms,
    ?_, ?_ ⟩
  · simp [create_email_request]
  · simp [delete_email_request]

/-- C3 witness: the amended statement at a concrete configuration, token,
address and timestamp. -/
theorem claim3_witness :
    ( ( "authorization", "ApiToken " ++ "tok123" ) ∈
        (create_email_request "agent1" "tok123" "al").headers ) ∧
    ( ( "_", toString 1700000000000 ) ∈
        (get_messages_request "agent1" "tok123" ("a@b".toList) 1700000000000).query ) ∧
    ( "_" ∉ (delete_email_request "agent1" "tok123" ("a@b".toList)).query.map Prod.fst ) := by
  have h := claim3_amended_token_and_timestamp "agent1" "tok123" "al" ("a@b".toList)
    "m1" 1700000000000
  exact ⟨ h.1, h.2.2.2.2.1, h.2.2.2.2.2.2.2 ⟩

/-- C8 counterexample: the claim says the constructed header set includes
the configured user-agent, but a configured user-agent holding a control
character is silently dropped from the header set. -/
theorem claim8_counterexample :
    "user-agent" ∉ ((create_email_request "bad\nagent" "tok" "a").headers.map Prod.fst) := by
  decide

/-- C8 (amended): for every configuration whose user-agent is a valid header
value, the shared header set carries the pinned host, the configured
user-agent, the JSON-preferring accept header, the fixed locale, the form
content-type, the authorization header embedding the bootstrap token, the
AJAX-indicating header, the pinned origin and referer pair and the fixed
fetch-metadata headers; the content-type entry is present on the POST header
set and removed from the GET header set. -/
theorem claim8_amended_header_set (ua tok : String) (h : validHeaderValue ua = true) :
    ( ( "host", "www.guerrillamail.com" ) ∈ headers_list ua tok ) ∧
    ( ( "user-agent", ua ) ∈ headers_list ua tok ) ∧
    ( ( "accept", "application/json, text/javascript, */*; q=0.01" ) ∈ headers_list ua tok ) ∧
    ( ( "accept-language", "en-US,en;q=0.5" ) ∈ headers_list ua tok ) ∧
    ( ( "content-type", "application/x-www-form-urlencoded; charset=UTF-8" ) ∈
        headers_list ua tok ) ∧
    ( ( "authorization", "ApiToken " ++ tok ) ∈ headers_list ua tok ) ∧
    ( ( "x-requested-with", "XMLHttpRequest" ) ∈ headers_list ua tok ) ∧
    ( ( "origin", "https://www.guerrillamail.com" ) ∈ headers_list ua tok ) ∧
    ( ( "referer", "https://www.guerrillamail.com/" ) ∈ headers_list ua tok ) ∧
    ( ( "sec-fetch-dest", "empty" ) ∈ headers_list ua tok ) ∧
    ( ( "sec-fetch-mode", "cors" ) ∈ headers_list ua tok ) ∧
    ( ( "sec-fetch-site", "same-origin" ) ∈ headers_list ua tok ) ∧
    ( ( "user-agent", ua ) ∈ get_api_headers ua tok ) ∧
    ( ( "authorization", "ApiToken " ++ tok ) ∈ get_api_headers ua tok ) ∧
    ( "content-type" ∉ (get_api_headers ua tok).map Prod.fst ) := by
  refine ⟨ by simp [headers_list, h], by simp [headers_list, h], by simp [headers_list, h],
    by simp [headers_list, h], by simp [headers_list, h], by simp [headers_list, h],
    by simp [headers_list, h], by simp [headers_list, h], by simp [headers_list, h],
    by simp [headers_list, h], by simp [headers_list, h], by simp [headers_list, h],
    ?_, auth_mem_get_api_headers ua tok, ?_ ⟩
  · exact List.mem_filter.mpr ⟨ by simp [headers_list, h], by rfl ⟩
  · intro hmem
    rcases List.mem_map.mp hmem with ⟨ p, hp, hfst ⟩
    have h2 := (List.mem_filter.mp hp).2
    rw [hfst] at h2
    simp at h2

/-- C8 witness: the amended statement at a concrete valid user-agent and
token. -/
theorem claim8_witness :
    ( ( "user-agent", "Mozilla/5.0" ) ∈ headers_list "Mozilla/5.0" "abcd" ) ∧
    ( ( "content-type", "application/x-www-form-urlencoded; charset=UTF-8" ) ∈
        headers_list "Mozilla/5.0" "abcd" ) ∧
    ( "content-type" ∉ (get_api_headers "Mozilla/5.0" "abcd").map Prod.fst ) := by
  have h := claim8_amended_header_set "Mozilla/5.0" "abcd" (by decide)
  exact ⟨ h.2.1, h.2.2.2.2.1, h.2.2.2.2.2.2.2.2.2.2.2.2.2.2 ⟩

/-- Matching a literal against an input that starts with it succeeds and
returns the rest. -/
theorem dropLit_of_append (lit s : List Char) : dropLit lit (lit ++ s) = some s := by
  induction lit with
  | nil => rfl
  | cons c cs ih => simp [dropLit, ih]

/-- Matching a one-character literal against an input that starts with that
character. -/
theorem dropLit_single (c : Char) (s : List Char) : dropLit [ c ] (c :: s) = some s := by
  simp [dropLit]

/-- A successful literal match decomposes the input. -/
theorem dropLit_eq_some (lit : List Char) :
    ∀ s r : List Char, dropLit lit s = some r → s = lit ++ r := by
  induction lit with
  | nil =>
    intro s r h
    simp only [dropLit, Option.some.injEq] at h
    simp [h]
  | cons c cs ih =>
    intro s r h
    cases s with
    | nil => simp [dropLit] at h
    | cons d ds =>
      simp only [dropLit] at h
      by_cases hcd : c = d
      · rw [if_pos hcd] at h
        subst hcd
        simpa using ih ds r h
      · rw [if_neg hcd] at h
        cases h

/-- Dropping a run of characters satisfying the predicate, up to the first
character that fails it. -/
theorem dropWhile_run (p : Char → Bool) (w : List Char) (x : Char) (r : List Char)
    (hw : ∀ c ∈ w, p c = true) (hx : p x = false) :
    List.dropWhile p (w ++ x :: r) = x :: r := by
  induction w with
  | nil => simp [List.dropWhile_cons, hx]
  | cons c cs ih =>
    have hc := hw c (by simp)
    simp [List.dropWhile_cons, hc, ih (fun d hd => hw d (by simp [hd]))]

/-- Taking a run of characters satisfying the predicate, up to the first
character that fails it. -/
theorem takeWhile_run (p : Char → Bool) (w : List Char) (x : Char) (r : List Char)
    (hw : ∀ c ∈ w, p c = true) (hx : p x = false) :
    List.takeWhile p (w ++ x :: r) = w := by
  induction w with
  | nil => simp [List.takeWhile_cons, hx]
  | cons c cs ih =>
    have hc := hw c (by simp)
    simp [List.takeWhile_cons, hc, ih (fun d hd => hw d (by simp [hd]))]

/-- Completeness of the anchored matcher: an input that starts with a full
pattern instance yields exactly that instance's capture group. -/
theorem matchAt_complete {s t : List Char} (h : patternInstanceWith s t) :
    matchAt s = some t := by
  obtain ⟨ w1, w2, rest, hw1, hw2, htne, htw, hs ⟩ := h
  subst hs
  have e1 : List.dropWhile wsChar (w1 ++ ':' :: (w2 ++ '\'' :: (t ++ '\'' :: rest))) =
      ':' :: (w2 ++ '\'' :: (t ++ '\'' :: rest)) :=
    dropWhile_run wsChar w1 ':' _ hw1 (by decide)
  have e2 : List.dropWhile wsChar (w2 ++ '\'' :: (t ++ '\'' :: rest)) =
      '\'' :: (t ++ '\'' :: rest) :=
    dropWhile_run wsChar w2 '\'' _ hw2 (by decide)
  have e3 : List.takeWhile wordChar (t ++ '\'' :: rest) = t :=
    takeWhile_run wordChar t '\'' rest htw (by decide)
  have e4 : List.dropWhile wordChar (t ++ '\'' :: rest) = '\'' :: rest :=
    dropWhile_run wordChar t '\'' rest htw (by decide)
  simp only [matchAt, dropLit_of_append, e1, dropLit_single, e2, e3, e4, if_neg htne]

/-- Soundness of the anchored matcher: a successful match decomposes the
input into a full pattern instance whose capture group is the result. -/
theorem matchAt_sound {s t : List Char} (h : matchAt s = some t) :
    patternInstanceWith s t := by
  unfold matchAt at h
  split at h
  · cases h
  next s1 h1 =>
    split at h
    · cases h
    next s3 h2 =>
      split at h
      · cases h
      next s5 h3 =>
        split at h
        · cases h
        next htne =>
          split at h
          · cases h
          next s7 h4 =>
            cases h
            have hs : s = patternLit ++ s1 := dropLit_eq_some patternLit s s1 h1
            have hd1 : List.dropWhile wsChar s1 = ':' :: s3 := by
              have := dropLit_eq_some [ ':' ] (List.dropWhile wsChar s1) s3 h2
              simpa using this
            have hd2 : List.dropWhile wsChar s3 = '\'' :: s5 := by
              have := dropLit_eq_some [ '\'' ] (List.dropWhile wsChar s3) s5 h3
              simpa using this
            have hd3 : List.dropWhile wordChar s5 = '\'' :: s7 := by
              have := dropLit_eq_some [ '\'' ] (List.dropWhile wordChar s5) s7 h4
              simpa using this
            have e1 : s1 = List.takeWhile wsChar s1 ++ ':' :: s3 := by
              rw [← hd1]
              exact (List.takeWhile_append_dropWhile wsChar s1).symm
            have e2 : s3 = List.takeWhile wsChar s3 ++ '\'' :: s5 := by
              rw [← hd2]
              exact (List.takeWhile_append_dropWhile wsChar s3).symm
            have e3 : s5 = List.takeWhile wordChar s5 ++ '\'' :: s7 := by
              rw [← hd3]
              exact (List.takeWhile_append_dropWhile wordChar s5).symm
            refine ⟨ List.takeWhile wsChar s1, List.takeWhile wsChar s3, s7,
              fun c hc => List.mem_takeWhile_imp hc,
              fun c hc => List.mem_takeWhile_imp hc,
              htne,
              fun c hc => List.mem_takeWhile_imp hc, ?_ ⟩
            calc s = patternLit ++ s1 := hs
              _ = patternLit ++ (List.takeWhile wsChar s1 ++ ':' :: s3) := by
                  rw [← e1]
              _ = patternLit ++ (List.takeWhile wsChar s1 ++
                    ':' :: (List.takeWhile wsChar s3 ++ '\'' :: s5)) := by
                  rw [← e2]
              _ = patternLit ++ (List.takeWhile wsChar s1 ++
                    ':' :: (List.takeWhile wsChar s3 ++
                      '\'' :: (List.takeWhile wordChar s5 ++ '\'' :: s7))) := by
                  rw [← e3]

/-- The anchored matcher fails exactly on inputs that do not start with a
pattern instance. -/
theorem matchAt_eq_none_iff (s : List Char) :
    matchAt s = none ↔ ¬ patternInstance s := by
  constructor
  · rintro hn ⟨ t, ht ⟩
    rw [matchAt_complete ht] at hn
    cases hn
  · intro hni
    cases hm : matchAt s with
    | none => rfl
    | some t => exact absurd ⟨ t, matchAt_sound hm ⟩ hni

/-- The empty input holds no pattern instance. -/
theorem patternInstance_nil : ¬ patternInstance ([] : List Char) := by
  rintro ⟨ t, w1, w2, rest, _, _, _, _, heq ⟩
  have h2 := (List.append_eq_nil.mp heq.symm).1
  exact absurd h2 (by decide)

/-- Unfolding of the containment predicate along the input. -/
theorem containsPattern_cons (c : Char) (s : List Char) :
    containsPattern (c :: s) ↔ patternInstance (c :: s) ∨ containsPattern s := by
  constructor
  · rintro ⟨ pre, suf, heq, hinst ⟩
    cases pre with
    | nil =>
      left
      simp only [List.nil_append] at heq
      rw [heq]
      exact hinst
    | cons d pre2 =>
      right
      injection heq with h1 h2
      exact ⟨ pre2, suf, h2, hinst ⟩
  · rintro (h | ⟨ pre, suf, heq, hinst ⟩)
    · exact ⟨ [], c :: s, rfl, h ⟩
    · exact ⟨ c :: pre, suf, by simp [heq], hinst ⟩

/-- The empty input contains no pattern instance. -/
theorem containsPattern_nil : ¬ containsPattern ([] : List Char) := by
  rintro ⟨ pre, suf, heq, hinst ⟩
  have h2 := (List.append_eq_nil.mp heq.symm).2
  rw [h2] at hinst
  exact patternInstance_nil hinst

/-- The leftmost scan fails exactly on inputs no substring of which is a
pattern instance. -/
theorem findToken_eq_none_iff (s : List Char) :
    findToken s = none ↔ ¬ containsPattern s := by
  induction s with
  | nil => simpa [findToken] using containsPattern_nil
  | cons c cs ih =>
    simp only [findToken]
    cases hm : matchAt (c :: cs) with
    | some t =>
      have hi : patternInstance (c :: cs) := ⟨ t, matchAt_sound hm ⟩
      simp [containsPattern_cons, hi]
    | none =>
      have hni : ¬ patternInstance (c :: cs) := (matchAt_eq_none_iff (c :: cs)).mp hm
      simp [containsPattern_cons, hni, ih]

/-- Soundness of the leftmost scan: a found token is the capture group of a
pattern instance at some position of the input. -/
theorem findToken_sound {t : List Char} :
    ∀ s : List Char, findToken s = some t →
      ∃ pre suf, s = pre ++ suf ∧ patternInstanceWith suf t := by
  intro s
  induction s with
  | nil => intro h; cases h
  | cons c cs ih =>
    intro h
    simp only [findToken] at h
    cases hm : matchAt (c :: cs) with
    | some t2 =>
      rw [hm] at h
      cases h
      exact ⟨ [], c :: cs, rfl, matchAt_sound hm ⟩
    | none =>
      rw [hm] at h
      obtain ⟨ pre, suf, he, hi ⟩ := ih h
      exact ⟨ c :: pre, suf, by simp [he], hi ⟩

/-- C5: session construction fails with the token-parse error exactly when
no substring of the landing page matches the token pattern, and a returned
session token is always the capture group of a pattern instance found on the
page. -/
theorem claim5_token_bootstrap (page : List Char) :
    (builder_build page = Except.error Error.TokenParse ↔ ¬ containsPattern page) ∧
    (∀ t, builder_build page = Except.ok t →
        ∃ pre suf, page = pre ++ suf ∧ patternInstanceWith suf t) := by
  constructor
  · cases hf : findToken page with
    | none =>
      have hnc := (findToken_eq_none_iff page).mp hf
      have hb : builder_build page = Except.error Error.TokenParse := by
        simp [builder_build, hf]
      exact iff_of_true hb hnc
    | some t =>
      have hc : containsPattern page := by
        obtain ⟨ pre, suf, he, hi ⟩ := findToken_sound page hf
        exact ⟨ pre, suf, he, ⟨ t, hi ⟩ ⟩
      have hb : builder_build page = Except.ok t := by
        simp [builder_build, hf]
      exact iff_of_false (by simp [hb]) (not_not_intro hc)
  · intro t ht
    unfold builder_build at ht
    split at ht
    next t2 hf =>
      cases ht
      exact findToken_sound page hf
    next hf => cases ht

/-- C5 witness: on a concrete page carrying the pattern, the scanner returns
the capture group ab12cd and the amended statement locates the instance. -/
theorem claim5_witness :
    ∃ pre suf, pageExample = pre ++ suf ∧ patternInstanceWith suf ("ab12cd".toList) :=
  (claim5_token_bootstrap pageExample).2 ("ab12cd".toList) (by rfl)

end GuerrillaMail
